import Mathlib

/-!
Shallow embedding of `src/stage6_route_optimization.py` (YOLOv5_Route-Optimization):
the multi-criteria route-optimization core.  Graph attributes that may arrive as
numbers, unparsable strings, or be absent are modelled by `Val`; Python floats are
modelled by exact rationals; functions that swallow exceptions are total; the one
uncaught exception (`min([])` in `normalize_edge_attributes`) is modelled by
`Option.none`.  `nx.shortest_path` / `nx.shortest_path_length` with the
`composite_weight` key are modelled by a fuel-indexed Dijkstra loop over the
multigraph, where the cost of stepping between an ordered node pair is the minimum
`composite_weight` (default 1, networkx's default for a missing weight attribute)
over the parallel edges, as in networkx's multigraph weight function.
-/

namespace Stage6

/-- A raw attribute value as stored in the graph artifact: a numeric value,
a present-but-unparsable value (Python `float(...)` raises), or an absent key. -/
inductive Val where
  | num (q : ℚ)
  | bad
  | absent
deriving DecidableEq

/-- Node attribute record: only `elevation` is read by the core
(`graph.nodes[u].get('elevation', 0)`). -/
structure NodeData where
  elevation : Val := Val.absent
deriving DecidableEq

/-- Edge attribute record: the raw attributes read by stage 6 plus the five
derived fields it writes (absent before the corresponding stage runs). -/
structure EdgeData where
  inverted_paser : Val := Val.absent
  length : Val := Val.absent
  distance : Val := Val.absent
  paser_score : Val := Val.absent
  travel_time : Val := Val.absent
  elevation_gain : Option ℚ := none
  norm_paser : Option ℚ := none
  norm_elev : Option ℚ := none
  norm_dist : Option ℚ := none
  composite_weight : Option ℚ := none
deriving DecidableEq

/-- A directed multigraph edge: ordered endpoints, disambiguating key, attributes. -/
structure Edge where
  u : ℕ
  v : ℕ
  k : ℕ
  data : EdgeData
deriving DecidableEq

/-- The `nx.MultiDiGraph`: node list with attributes, edge list in iteration order. -/
structure Graph where
  nodes : List (ℕ × NodeData)
  edges : List Edge
deriving DecidableEq

def Graph.nodeIds (g : Graph) : List ℕ := g.nodes.map Prod.fst

/-- `graph.nodes[u].get('elevation', 0)` followed by `float(...)`:
an absent elevation defaults to `0` (which parses), a numeric value parses to
itself, an unparsable value makes `float` raise (`none`).  Nodes referenced by
edges always exist in a networkx graph; a lookup miss is totalised to `absent`. -/
def floatElev : Val → Option ℚ
  | Val.num q => some q
  | Val.absent => some 0
  | Val.bad => none

def Graph.elevOf (g : Graph) (n : ℕ) : Val :=
  ((g.nodes.find? (fun p => p.1 == n)).map (fun p => p.2.elevation)).getD Val.absent

/-- Body of the per-edge `try` block in `calculate_elevation_gain`:
`max(0, elev_v - elev_u)` when both elevations convert, else `0.0`. -/
def edgeGain (eu ev : Val) : ℚ :=
  match floatElev eu, floatElev ev with
  | some a, some b => max 0 (b - a)
  | _, _ => 0

/-- `calculate_elevation_gain`: writes `elevation_gain` onto every edge. -/
def calculate_elevation_gain (g : Graph) : Graph :=
  { g with
    edges := g.edges.map (fun e =>
      { e with data := { e.data with
          elevation_gain := some (edgeGain (g.elevOf e.u) (g.elevOf e.v)) } }) }

/-- Python `min(...)` over a list (raises on `[]`, hence `none`). -/
def pyMin : List ℚ → Option ℚ
  | [] => none
  | x :: xs => some (xs.foldl min x)

/-- Python `max(...)` over a list (raises on `[]`, hence `none`). -/
def pyMax : List ℚ → Option ℚ
  | [] => none
  | x :: xs => some (xs.foldl max x)

/-- `data.get('inverted_paser', 6.0)` followed by `float` with fallback `6.0`. -/
def paserVal (d : EdgeData) : ℚ :=
  match d.inverted_paser with
  | Val.num q => q
  | _ => 6

/-- `data.get('elevation_gain', 0.0)` (no further coercion in the source). -/
def elevVal (d : EdgeData) : ℚ := d.elevation_gain.getD 0

/-- `data.get('length', data.get('distance', 0.0))` followed by `float` with
fallback `0.0`. -/
def distVal (d : EdgeData) : ℚ :=
  match d.length with
  | Val.num q => q
  | Val.bad => 0
  | Val.absent =>
    match d.distance with
    | Val.num q => q
    | _ => 0

def paserList (g : Graph) : List ℚ := g.edges.map (fun e => paserVal e.data)
def elevList (g : Graph) : List ℚ := g.edges.map (fun e => elevVal e.data)
def distList (g : Graph) : List ℚ := g.edges.map (fun e => distVal e.data)

/-- The per-edge body of the second loop of `normalize_edge_attributes`:
min-max for the inverted-PASER and distance channels (with the `max > min`
guards), `value / max` for elevation (with the `max > 0` guard). -/
def normEdgeData (minp maxp maxe mind maxd : ℚ) (d : EdgeData) : EdgeData :=
  { d with
    norm_paser := some (if minp < maxp then (paserVal d - minp) / (maxp - minp) else 0)
    norm_elev := some (if 0 < maxe then elevVal d / maxe else 0)
    norm_dist := some (if mind < maxd then (distVal d - mind) / (maxd - mind) else 0) }

/-- `normalize_edge_attributes`: collects the three channel value lists, takes
their `min`/`max` (Python `min`/`max` raise `ValueError` on an empty edge set —
modelled by `none`), then writes `norm_paser`, `norm_elev`, `norm_dist`. -/
def normalize_edge_attributes (g : Graph) : Option Graph :=
  match pyMin (paserList g), pyMax (paserList g), pyMin (elevList g),
      pyMax (elevList g), pyMin (distList g), pyMax (distList g) with
  | some minp, some maxp, some _, some maxe, some mind, some maxd =>
    some { g with
      edges := g.edges.map (fun e => { e with data := normEdgeData minp maxp maxe mind maxd e.data }) }
  | _, _, _, _, _, _ => none

/-- ROC coefficients (`ALPHA`, `BETA`, `GAMMA` constants of the script). -/
def ALPHA : ℚ := 611 / 1000
def BETA : ℚ := 278 / 1000
def GAMMA : ℚ := 111 / 1000

/-- `ALPHA * norm_paser + BETA * norm_elev + GAMMA * norm_dist`, with the
`data.get(..., 0.0)` defaults of `calculate_composite_weights`. -/
def compositeOf (d : EdgeData) : ℚ :=
  ALPHA * d.norm_paser.getD 0 + BETA * d.norm_elev.getD 0 + GAMMA * d.norm_dist.getD 0

/-- `calculate_composite_weights`: writes `composite_weight` onto every edge. -/
def calculate_composite_weights (g : Graph) : Graph :=
  { g with
    edges := g.edges.map (fun e =>
      { e with data := { e.data with composite_weight := some (compositeOf e.data) } }) }

/-- `graph.has_edge(u, v)`: some edge joins the ordered pair. -/
def adj (g : Graph) (u v : ℕ) : Bool :=
  g.edges.any (fun e => e.u == u && e.v == v)

/-- Distinct successors of `v` (networkx `G_succ[v]`). -/
def successors (g : Graph) (v : ℕ) : List ℕ :=
  ((g.edges.filter (fun e => e.u == v)).map (fun e => e.v)).dedup

/-- networkx multigraph weight function for the `composite_weight` key:
`min(attr.get('composite_weight', 1) for attr in parallel edges)`.
Only consulted when at least one `u → v` edge exists; totalised to 1. -/
def minEdgeWeight (g : Graph) (u v : ℕ) : ℚ :=
  (pyMin (((g.edges.filter (fun e => e.u == u && e.v == v)).map
    (fun e => e.data.composite_weight.getD 1)))).getD 1

/-- A priority-frontier entry: tentative cost, node, path from the source. -/
abbrev Entry := ℚ × ℕ × List ℕ

/-- Pop a minimum-cost entry (first among ties, matching the heap's push counter). -/
def popMin : List Entry → Option (Entry × List Entry)
  | [] => none
  | x :: xs =>
    match popMin xs with
    | none => some (x, [])
    | some (m, rest) => if x.1 ≤ m.1 then some (x, xs) else some (m, x :: rest)

/-- Push every successor of the settled node onto the frontier with its relaxed
cost and extended path. -/
def relax (g : Graph) (d : ℚ) (v : ℕ) (p : List ℕ) (rest : List Entry) : List Entry :=
  rest ++ (successors g v).map (fun w => (d + minEdgeWeight g v w, w, p ++ [w]))

/-- Dijkstra's main loop (networkx `_dijkstra_multisource`), fuel-indexed: pop the
cheapest frontier entry, skip it if already settled, stop at the target, otherwise
settle it and relax its out-edges.  The fuel passed by `dijkstra` exceeds the
total number of pushes (1 + sum of out-degrees of settled nodes ≤ 1 + |E|), so
fuel exhaustion never occurs in a run started by `dijkstra`. -/
def dijkstraLoop (g : Graph) (t : ℕ) : ℕ → List ℕ → List Entry → Option (List ℕ × ℚ)
  | 0, _, _ => none
  | fuel + 1, settled, frontier =>
    match popMin frontier with
    | none => none
    | some ((d, v, p), rest) =>
      if v ∈ settled then dijkstraLoop g t fuel settled rest
      else if v = t then some (p, d)
      else dijkstraLoop g t fuel (v :: settled) (relax g d v p rest)

/-- The two exceptions `nx.shortest_path` can raise here: `NodeNotFound`
(source or target absent) and `NetworkXNoPath` (frontier exhausted). -/
inductive SolverErr where
  | nodeNotFound
  | noPath
deriving DecidableEq

/-- `nx.shortest_path` / `nx.shortest_path_length` with `weight='composite_weight'`:
checks that both endpoints are in the graph (else `NodeNotFound`), then runs
Dijkstra; an exhausted frontier is `NetworkXNoPath`.  Path and cost come from the
same run (the two networkx calls in `find_optimal_route` recompute the same
deterministic result). -/
def dijkstra (g : Graph) (s t : ℕ) : Except SolverErr (List ℕ × ℚ) :=
  if s ∈ g.nodeIds ∧ t ∈ g.nodeIds then
    match dijkstraLoop g t (g.edges.length + g.nodes.length + 2) [] [(0, s, [s])] with
    | some (p, d) => .ok (p, d)
    | none => .error .noPath
  else .error .nodeNotFound

/-- `find_optimal_route`: returns the path and cost on success; the
`except nx.NetworkXNoPath` clause and the catch-all `except Exception` clause
both return `([], float('inf'))`, so every solver error collapses to `([], ⊤)`. -/
def find_optimal_route (g : Graph) (s t : ℕ) : List ℕ × WithTop ℚ :=
  match dijkstra g s t with
  | .ok (p, d) => (p, (d : WithTop ℚ))
  | .error _ => ([], ⊤)

/-- The analysis dict built by `analyze_route_composition` (when non-empty). -/
structure RouteAnalysis where
  total_distance_m : ℚ
  total_elevation_gain_m : ℚ
  average_paser_score : ℚ
  average_composite_weight : ℚ
  num_segments : ℕ
deriving DecidableEq

/-- `edge_data.get('paser_score', 5.0)` followed by `float` with fallback `5.0`. -/
def paserScoreVal (d : EdgeData) : ℚ :=
  match d.paser_score with
  | Val.num q => q
  | _ => 5

/-- `if graph.has_edge(u, v): edge_data = graph[u][v][0]`: the key-0 edge of the
ordered pair (networkx assigns keys 0, 1, … for auto-keyed edges, so key 0 exists
whenever any `u → v` edge does). -/
def segmentEdge (g : Graph) (u v : ℕ) : Option EdgeData :=
  if adj g u v then
    (g.edges.find? (fun e => e.u == u && e.v == v && e.k == 0)).map (fun e => e.data)
  else none

/-- Consecutive node pairs `(path[i], path[i+1])` of a path. -/
def segmentPairs (path : List ℕ) : List (ℕ × ℕ) := path.zip path.tail

/-- `analyze_route_composition`: `{}` (here `none`) for a path of fewer than two
nodes; otherwise walks the consecutive pairs, keeps the segments whose key-0 edge
data was found, and aggregates sums, `np.mean`s (sum / count, with the source's
defaults 5.0 and 0.0 for an empty collection), and the segment count. -/
def analyze_route_composition (g : Graph) (path : List ℕ) : Option RouteAnalysis :=
  if path.length < 2 then none
  else
    let segs := (segmentPairs path).filterMap (fun pr => segmentEdge g pr.1 pr.2)
    some {
      total_distance_m := (segs.map distVal).sum
      total_elevation_gain_m := (segs.map elevVal).sum
      average_paser_score :=
        if segs.isEmpty then 5 else (segs.map paserScoreVal).sum / (segs.length : ℚ)
      average_composite_weight :=
        if segs.isEmpty then 0
        else (segs.map (fun d => d.composite_weight.getD 0)).sum / (segs.length : ℚ)
      num_segments := path.length - 1 }

/-- A non-empty node sequence whose consecutive nodes are each joined by at
least one directed edge. -/
def isWalk (g : Graph) : List ℕ → Bool
  | [] => false
  | [_] => true
  | u :: v :: rest => adj g u v && isWalk g (v :: rest)

/-- There is a directed path from `s` to `t` in `g`. -/
def Reachable (g : Graph) (s t : ℕ) : Prop :=
  ∃ p : List ℕ, isWalk g p = true ∧ p.head? = some s ∧ p.getLast? = some t

/-- The raw (never-written) part of an edge: endpoints, key, and the five raw
attributes the derivation stages only read. -/
def rawView (e : Edge) : ℕ × ℕ × ℕ × Val × Val × Val × Val × Val :=
  (e.u, e.v, e.k, e.data.inverted_paser, e.data.length, e.data.distance,
   e.data.paser_score, e.data.travel_time)

theorem foldl_min_le_init (xs : List ℚ) (a : ℚ) : xs.foldl min a ≤ a := by
  induction xs generalizing a with
  | nil => simp
  | cons x xs ih => exact le_trans (ih (min a x)) (min_le_left a x)

theorem foldl_min_le_mem (xs : List ℚ) (a : ℚ) : ∀ x ∈ xs, xs.foldl min a ≤ x := by
  induction xs generalizing a with
  | nil => simp
  | cons y ys ih =>
    intro x hx
    rcases List.mem_cons.mp hx with h | h
    · subst h
      exact le_trans (foldl_min_le_init ys (min a x)) (min_le_right a x)
    · exact ih (min a y) x h

theorem foldl_min_mem (xs : List ℚ) (a : ℚ) : xs.foldl min a = a ∨ xs.foldl min a ∈ xs := by
  induction xs generalizing a with
  | nil => simp
  | cons y ys ih =>
    show ys.foldl min (min a y) = a ∨ ys.foldl min (min a y) ∈ y :: ys
    rcases ih (min a y) with h | h
    · rcases le_total a y with hay | hya
      · left; rw [h, min_eq_left hay]
      · right; rw [h, min_eq_right hya]; exact List.mem_cons_self y ys
    · right; exact List.mem_cons_of_mem y h

theorem foldl_max_init_le (xs : List ℚ) (a : ℚ) : a ≤ xs.foldl max a := by
  induction xs generalizing a with
  | nil => simp
  | cons x xs ih => exact le_trans (le_max_left a x) (ih (max a x))

theorem foldl_max_mem_le (xs : List ℚ) (a : ℚ) : ∀ x ∈ xs, x ≤ xs.foldl max a := by
  induction xs generalizing a with
  | nil => simp
  | cons y ys ih =>
    intro x hx
    rcases List.mem_cons.mp hx with h | h
    · subst h
      exact le_trans (le_max_right a x) (foldl_max_init_le ys (max a x))
    · exact ih (max a y) x h

theorem foldl_max_mem (xs : List ℚ) (a : ℚ) : xs.foldl max a = a ∨ xs.foldl max a ∈ xs := by
  induction xs generalizing a with
  | nil => simp
  | cons y ys ih =>
    show ys.foldl max (max a y) = a ∨ ys.foldl max (max a y) ∈ y :: ys
    rcases ih (max a y) with h | h
    · rcases le_total a y with hay | hya
      · right; rw [h, max_eq_right hay]; exact List.mem_cons_self y ys
      · left; rw [h, max_eq_left hya]
    · right; exact List.mem_cons_of_mem y h

theorem pyMin_le {l : List ℚ} {m : ℚ} (h : pyMin l = some m) : ∀ x ∈ l, m ≤ x := by
  match l with
  | [] => simp [pyMin] at h
  | x :: xs =>
    simp only [pyMin, Option.some.injEq] at h
    subst h
    intro y hy
    rcases List.mem_cons.mp hy with h | h
    · subst h; exact foldl_min_le_init xs y
    · exact foldl_min_le_mem xs x y h

theorem pyMin_mem {l : List ℚ} {m : ℚ} (h : pyMin l = some m) : m ∈ l := by
  match l with
  | [] => simp [pyMin] at h
  | x :: xs =>
    simp only [pyMin, Option.some.injEq] at h
    subst h
    rcases foldl_min_mem xs x with h | h
    · rw [h]; exact List.mem_cons_self x xs
    · exact List.mem_cons_of_mem x h

theorem pyMax_ge {l : List ℚ} {m : ℚ} (h : pyMax l = some m) : ∀ x ∈ l, x ≤ m := by
  match l with
  | [] => simp [pyMax] at h
  | x :: xs =>
    simp only [pyMax, Option.some.injEq] at h
    subst h
    intro y hy
    rcases List.mem_cons.mp hy with h | h
    · subst h; exact foldl_max_init_le xs y
    · exact foldl_max_mem_le xs x y h

theorem pyMax_mem {l : List ℚ} {m : ℚ} (h : pyMax l = some m) : m ∈ l := by
  match l with
  | [] => simp [pyMax] at h
  | x :: xs =>
    simp only [pyMax, Option.some.injEq] at h
    subst h
    rcases foldl_max_mem xs x with h | h
    · rw [h]; exact List.mem_cons_self x xs
    · exact List.mem_cons_of_mem x h

/-- C10: on a graph with zero edges the normalizer hits `min([])`, whose
`ValueError` is uncaught (modelled by `none`): a non-empty edge set is a
precondition of `normalize_edge_attributes`. -/
theorem C10_empty_edge_set (g : Graph) (h : g.edges = []) :
    normalize_edge_attributes g = none := by
  simp [normalize_edge_attributes, paserList, h, pyMin]

def gC10 : Graph := ⟨[(1, {}), (2, {})], []⟩

/-- Witness for C10 on a concrete two-node, zero-edge graph. -/
theorem C10_witness : normalize_edge_attributes gC10 = none :=
  C10_empty_edge_set gC10 rfl

/-- C8: a path of fewer than two nodes yields the empty analysis (`{}`, modelled
by `none`) and no error; a path of `n ≥ 2` nodes reports `num_segments = n - 1`. -/
theorem C8_short_path_and_segment_count (g : Graph) (path : List ℕ) :
    (path.length < 2 → analyze_route_composition g path = none) ∧
    (2 ≤ path.length →
      (analyze_route_composition g path).map (fun a => a.num_segments) =
        some (path.length - 1)) := by
  constructor
  · intro h
    simp [analyze_route_composition, h]
  · intro h
    rw [analyze_route_composition, if_neg (Nat.not_lt.mpr h)]
    rfl

def gC8 : Graph := ⟨[], []⟩

/-- Witness for C8: a 3-node path on a concrete graph has 2 segments. -/
theorem C8_witness :
    (analyze_route_composition gC8 [1, 2, 3]).map (fun a => a.num_segments) = some 2 :=
  (C8_short_path_and_segment_count gC8 [1, 2, 3]).2 (by norm_num)

/-- C7: every edge written by `calculate_composite_weights` carries
`ALPHA·norm_paser + BETA·norm_elev + GAMMA·norm_dist`; the coefficients sum to 1
with `ALPHA > BETA > GAMMA > 0`; and whenever the three normalized inputs lie in
`[0,1]` the composite weight lies in `[0,1]`. -/
theorem C7_composite_weight (g : Graph) (e : Edge)
    (he : e ∈ (calculate_composite_weights g).edges) :
    e.data.composite_weight = some (compositeOf e.data) ∧
    ALPHA + BETA + GAMMA = 1 ∧ 0 < GAMMA ∧ GAMMA < BETA ∧ BETA < ALPHA ∧
    (0 ≤ e.data.norm_paser.getD 0 → e.data.norm_paser.getD 0 ≤ 1 →
      0 ≤ e.data.norm_elev.getD 0 → e.data.norm_elev.getD 0 ≤ 1 →
      0 ≤ e.data.norm_dist.getD 0 → e.data.norm_dist.getD 0 ≤ 1 →
      0 ≤ compositeOf e.data ∧ compositeOf e.data ≤ 1) := by
  simp only [calculate_composite_weights, List.mem_map] at he
  obtain ⟨e0, _, rfl⟩ := he
  refine ⟨rfl, by norm_num [ALPHA, BETA, GAMMA], by norm_num [GAMMA],
    by norm_num [BETA, GAMMA], by norm_num [ALPHA, BETA], ?_⟩
  intro h1 h2 h3 h4 h5 h6
  simp only [compositeOf, ALPHA, BETA, GAMMA] at *
  constructor <;> nlinarith

def gC7 : Graph :=
  ⟨[(1, {}), (2, {})],
   [⟨1, 2, 0, { norm_paser := some (1/2), norm_elev := some 0, norm_dist := some 1 }⟩]⟩

def eC7 : Edge :=
  ⟨1, 2, 0,
   { norm_paser := some (1/2), norm_elev := some 0, norm_dist := some 1,
     composite_weight := some (833/2000) }⟩

/-- Witness for C7 on a concrete weighted edge. -/
theorem C7_witness :
    eC7.data.composite_weight = some (compositeOf eC7.data) ∧
    0 ≤ compositeOf eC7.data ∧ compositeOf eC7.data ≤ 1 := by
  have h := C7_composite_weight gC7 eC7 (by
    simp only [calculate_composite_weights, gC7, List.map, compositeOf, eC7,
      ALPHA, BETA, GAMMA, List.mem_singleton]
    norm_num)
  exact ⟨h.1, h.2.2.2.2.2 (by norm_num [eC7]) (by norm_num [eC7]) (by norm_num [eC7])
    (by norm_num [eC7]) (by norm_num [eC7]) (by norm_num [eC7])⟩

def gC4 : Graph :=
  ⟨[(1, { elevation := Val.num 0 }), (2, { elevation := Val.num 5 })],
   [⟨1, 2, 0, { inverted_paser := Val.num 4, length := Val.num 100 }⟩]⟩

/-- Counterexample to C4: a single-edge graph whose edge has strictly positive
derived elevation gain (5) is normalized to `norm_elev = 1`, not `0`. -/
theorem C4_counterexample :
    (normalize_edge_attributes (calculate_elevation_gain gC4)).map
      (fun g => g.edges.map (fun e => e.data.norm_elev)) = some [some 1] ∧
    (1 : ℚ) ≠ 0 := by
  constructor
  · simp only [normalize_edge_attributes, calculate_elevation_gain, gC4, Graph.elevOf, edgeGain,
      floatElev, List.find?, List.map, Nat.reduceBEq, beq_self_eq_true, Option.map, Option.getD,
      paserList, elevList, distList, pyMin, pyMax, normEdgeData, paserVal, elevVal, distVal]
    norm_num
  · norm_num

/-- C4 amended: on a single-edge graph the guards prevent any division by zero
and `norm_paser = norm_dist = 0`, but `norm_elev` is `value / max`, hence `1`
when the edge's elevation gain is positive and `0` otherwise. -/
theorem C4_single_edge_amended (ns : List (ℕ × NodeData)) (e : Edge) :
    normalize_edge_attributes ⟨ns, [e]⟩ =
      some ⟨ns, [{ e with data := { e.data with
        norm_paser := some 0,
        norm_elev := some (if 0 < elevVal e.data then 1 else 0),
        norm_dist := some 0 } }]⟩ := by
  simp only [normalize_edge_attributes, paserList, elevList, distList, List.map, pyMin, pyMax,
    List.foldl, normEdgeData, lt_irrefl, if_false, Option.some.injEq, Graph.mk.injEq,
    List.cons.injEq, and_true, List.map_nil]
  refine ⟨trivial, ?_⟩
  have hdiv : (if 0 < elevVal e.data then elevVal e.data / elevVal e.data else 0)
      = (if 0 < elevVal e.data then (1 : ℚ) else 0) := by
    split
    · next h => exact div_self (ne_of_gt h)
    · rfl
  rw [hdiv]

def gC5 : Graph := ⟨[(1, {}), (2, { elevation := Val.num 10 })], [⟨1, 2, 0, {}⟩]⟩

/-- Counterexample to C5: node 1 has no `elevation` attribute (missing, not
unparsable), node 2 has elevation 10; the derived gain on edge 1→2 is 10, not
the 0 the claim requires for a missing elevation. -/
theorem C5_counterexample :
    gC5.elevOf 1 = Val.absent ∧
    (calculate_elevation_gain gC5).edges.map (fun e => e.data.elevation_gain) = [some 10] ∧
    (10 : ℚ) ≠ 0 := by
  refine ⟨rfl, ?_, by norm_num⟩
  simp only [calculate_elevation_gain, gC5, List.map, Graph.elevOf, List.find?,
    Nat.reduceBEq, beq_self_eq_true, Option.map, Option.getD, floatElev, edgeGain]
  norm_num

/-- C5 amended: derivation writes `elevation_gain = max(0, elev(v) - elev(u))`
onto every edge, treating a missing elevation as elevation 0 (so the gain can be
positive); an unparsable elevation on either endpoint yields gain 0; derivation
is total (never raises) and every derived gain is nonnegative. -/
theorem C5_elevation_gain_amended (g : Graph) (e : Edge)
    (he : e ∈ (calculate_elevation_gain g).edges) :
    e.data.elevation_gain = some (edgeGain (g.elevOf e.u) (g.elevOf e.v)) ∧
    0 ≤ (e.data.elevation_gain.getD 0) ∧
    ((g.elevOf e.u = Val.bad ∨ g.elevOf e.v = Val.bad) → e.data.elevation_gain = some 0) ∧
    (∀ a b : ℚ, floatElev (g.elevOf e.u) = some a → floatElev (g.elevOf e.v) = some b →
      e.data.elevation_gain = some (max 0 (b - a))) := by
  simp only [calculate_elevation_gain, List.mem_map] at he
  obtain ⟨e0, _, rfl⟩ := he
  refine ⟨rfl, ?_, ?_, ?_⟩
  · show 0 ≤ edgeGain (g.elevOf e0.u) (g.elevOf e0.v)
    unfold edgeGain
    cases floatElev (g.elevOf e0.u) <;> cases floatElev (g.elevOf e0.v) <;> simp
  · intro hbad
    show some (edgeGain (g.elevOf e0.u) (g.elevOf e0.v)) = some 0
    rcases hbad with h | h
    · rw [h]; unfold edgeGain; simp [floatElev]
    · rw [h]; unfold edgeGain; simp only [floatElev]
      cases floatElev (g.elevOf e0.u) <;> simp
  · intro a b ha hb
    show some (edgeGain (g.elevOf e0.u) (g.elevOf e0.v)) = some (max 0 (b - a))
    unfold edgeGain
    rw [ha, hb]

def eC5 : Edge := ⟨1, 2, 0, { elevation_gain := some 10 }⟩

/-- Witness for the amended C5 at the concrete graph `gC5`. -/
theorem C5_witness :
    eC5.data.elevation_gain = some (edgeGain (gC5.elevOf eC5.u) (gC5.elevOf eC5.v)) ∧
    0 ≤ (eC5.data.elevation_gain.getD 0) := by
  have h := C5_elevation_gain_amended gC5 eC5 (by
    simp only [calculate_elevation_gain, gC5, List.map, Graph.elevOf, List.find?,
      Nat.reduceBEq, beq_self_eq_true, Option.map, Option.getD, floatElev, edgeGain,
      List.mem_singleton, eC5]
    norm_num)
  exact ⟨h.1, h.2.1⟩

/-- C9: the three derivation stages only write the derived fields
(`elevation_gain`, `norm_paser`, `norm_elev`, `norm_dist`, `composite_weight`);
node attributes and the raw edge attributes (`inverted_paser`, `length`,
`distance`, `paser_score`, `travel_time`) and the edge endpoints/keys are
unchanged, as witnessed through `rawView`. -/
theorem C9_frame_preservation (g g2 : Graph)
    (hn : normalize_edge_attributes g = some g2) :
    ((calculate_elevation_gain g).nodes = g.nodes ∧
      (calculate_elevation_gain g).edges.map rawView = g.edges.map rawView) ∧
    (g2.nodes = g.nodes ∧ g2.edges.map rawView = g.edges.map rawView) ∧
    ((calculate_composite_weights g).nodes = g.nodes ∧
      (calculate_composite_weights g).edges.map rawView = g.edges.map rawView) := by
  refine ⟨⟨rfl, ?_⟩, ?_, ⟨rfl, ?_⟩⟩
  · show (g.edges.map _).map rawView = g.edges.map rawView
    rw [List.map_map]
    rfl
  · unfold normalize_edge_attributes at hn
    split at hn
    · next minp maxp mine maxe mind maxd heq1 heq2 heq3 heq4 heq5 heq6 =>
      rw [Option.some.injEq] at hn
      subst hn
      refine ⟨rfl, ?_⟩
      show (g.edges.map _).map rawView = g.edges.map rawView
      rw [List.map_map]
      rfl
    · next => exact absurd hn (by simp)
  · show (g.edges.map _).map rawView = g.edges.map rawView
    rw [List.map_map]
    rfl

def gC9 : Graph := ⟨[(1, { elevation := Val.num 0 })], [⟨1, 1, 0, {}⟩]⟩

def gC9n : Graph :=
  ⟨[(1, { elevation := Val.num 0 })],
   [⟨1, 1, 0, { norm_paser := some 0, norm_elev := some 0, norm_dist := some 0 }⟩]⟩

/-- Witness for C9 at a concrete one-edge graph. -/
theorem C9_witness :
    ((calculate_elevation_gain gC9).nodes = gC9.nodes ∧
      (calculate_elevation_gain gC9).edges.map rawView = gC9.edges.map rawView) ∧
    (gC9n.nodes = gC9.nodes ∧ gC9n.edges.map rawView = gC9.edges.map rawView) ∧
    ((calculate_composite_weights gC9).nodes = gC9.nodes ∧
      (calculate_composite_weights gC9).edges.map rawView = gC9.edges.map rawView) :=
  C9_frame_preservation gC9 gC9n (by
    simp only [normalize_edge_attributes, gC9, gC9n, paserList, elevList, distList, List.map,
      pyMin, pyMax, List.foldl, normEdgeData, paserVal, elevVal, distVal, Option.getD]
    norm_num)

theorem popMin_subset :
    ∀ (l : List Entry) (m : Entry) (rest : List Entry),
      popMin l = some (m, rest) → m ∈ l ∧ ∀ x ∈ rest, x ∈ l := by
  intro l
  induction l with
  | nil => intro m rest h; simp [popMin] at h
  | cons x xs ih =>
    intro m rest h
    rw [popMin] at h
    cases hx : popMin xs with
    | none =>
      simp only [hx, Option.some.injEq, Prod.mk.injEq] at h
      obtain ⟨rfl, rfl⟩ := h
      exact ⟨List.mem_cons_self x xs, by simp⟩
    | some pr =>
      obtain ⟨m2, rest2⟩ := pr
      simp only [hx] at h
      obtain ⟨hm2, hrest2⟩ := ih m2 rest2 hx
      by_cases hle : x.1 ≤ m2.1
      · rw [if_pos hle] at h
        simp only [Option.some.injEq, Prod.mk.injEq] at h
        obtain ⟨rfl, rfl⟩ := h
        exact ⟨List.mem_cons_self x xs, fun y hy => List.mem_cons_of_mem x hy⟩
      · rw [if_neg hle] at h
        simp only [Option.some.injEq, Prod.mk.injEq] at h
        obtain ⟨rfl, rfl⟩ := h
        refine ⟨List.mem_cons_of_mem x hm2, ?_⟩
        intro y hy
        rcases List.mem_cons.mp hy with hxy | hr
        · subst hxy; exact List.mem_cons_self y xs
        · exact List.mem_cons_of_mem x (hrest2 y hr)

theorem successors_adj {g : Graph} {v w : ℕ} (h : w ∈ successors g v) :
    adj g v w = true := by
  simp only [successors, List.mem_dedup, List.mem_map, List.mem_filter] at h
  obtain ⟨e, ⟨he, hu⟩, hv⟩ := h
  simp only [adj, List.any_eq_true]
  refine ⟨e, he, ?_⟩
  simp only [Bool.and_eq_true, beq_iff_eq] at hu ⊢
  exact ⟨hu, hv⟩

theorem isWalk_ne_nil {g : Graph} {p : List ℕ} (h : isWalk g p = true) : p ≠ [] := by
  intro hnil
  subst hnil
  simp [isWalk] at h

theorem isWalk_concat (g : Graph) (w : ℕ) :
    ∀ (p : List ℕ) (v : ℕ), isWalk g p = true → p.getLast? = some v →
      adj g v w = true → isWalk g (p ++ [w]) = true := by
  intro p
  induction p with
  | nil => intro v h _ _; simp [isWalk] at h
  | cons a rest ih =>
    intro v h hl ha
    cases rest with
    | nil =>
      simp only [List.getLast?_singleton, Option.some.injEq] at hl
      subst hl
      simpa [isWalk] using ha
    | cons b rest2 =>
      simp only [isWalk, Bool.and_eq_true] at h
      have hl2 : (b :: rest2).getLast? = some v := by
        rw [List.getLast?_cons_cons] at hl
        exact hl
      have hstep := ih v h.2 hl2 ha
      show isWalk g (a :: ((b :: rest2) ++ [w])) = true
      simp only [List.cons_append, isWalk, Bool.and_eq_true]
      constructor
      · exact h.1
      · simpa [List.cons_append] using hstep

def EntryOK (g : Graph) (s : ℕ) (en : Entry) : Prop :=
  isWalk g en.2.2 = true ∧ en.2.2.head? = some s ∧ en.2.2.getLast? = some en.2.1

theorem dijkstraLoop_sound (g : Graph) (s t : ℕ) :
    ∀ (fuel : ℕ) (settled : List ℕ) (frontier : List Entry) (p : List ℕ) (d : ℚ),
      (∀ en ∈ frontier, EntryOK g s en) →
      dijkstraLoop g t fuel settled frontier = some (p, d) →
      isWalk g p = true ∧ p.head? = some s ∧ p.getLast? = some t := by
  intro fuel
  induction fuel with
  | zero => intro settled frontier p d _ h; simp [dijkstraLoop] at h
  | succ n ih =>
    intro settled frontier p d hinv h
    rw [dijkstraLoop] at h
    cases hpop : popMin frontier with
    | none => simp only [hpop] at h; exact absurd h (by simp)
    | some pr =>
      obtain ⟨⟨dd, v, q⟩, rest⟩ := pr
      simp only [hpop] at h
      obtain ⟨hm, hrest⟩ := popMin_subset frontier _ _ hpop
      have hOK := hinv _ hm
      by_cases hset : v ∈ settled
      · rw [if_pos hset] at h
        exact ih settled rest p d (fun en he => hinv en (hrest en he)) h
      · rw [if_neg hset] at h
        by_cases hvt : v = t
        · rw [if_pos hvt] at h
          simp only [Option.some.injEq, Prod.mk.injEq] at h
          obtain ⟨rfl, rfl⟩ := h
          subst hvt
          exact ⟨hOK.1, hOK.2.1, hOK.2.2⟩
        · rw [if_neg hvt] at h
          refine ih _ _ p d ?_ h
          intro en hen
          rcases List.mem_append.mp hen with hr | hnew
          · exact hinv en (hrest en hr)
          · obtain ⟨ww, hw, rfl⟩ := List.mem_map.mp hnew
            have hadj := successors_adj hw
            refine ⟨isWalk_concat g ww q v hOK.1 hOK.2.2 hadj, ?_, ?_⟩
            · show (q ++ [ww]).head? = some s
              cases hq : q with
              | nil => exact absurd hq (isWalk_ne_nil hOK.1)
              | cons a r =>
                have := hOK.2.1
                rw [hq] at this
                simpa using this
            · exact List.getLast?_concat q

/-- C2: querying between two nodes that are both present but with no directed
path between them returns the empty path with cost `+∞` (the `NetworkXNoPath`
outcome), and no exception escapes `find_optimal_route`. -/
theorem C2_disconnected_no_path (g : Graph) (s t : ℕ)
    (hs : s ∈ g.nodeIds) (ht : t ∈ g.nodeIds) (hnr : ¬ Reachable g s t) :
    find_optimal_route g s t = ([], ⊤) := by
  unfold find_optimal_route dijkstra
  rw [if_pos ⟨hs, ht⟩]
  cases hrun : dijkstraLoop g t (g.edges.length + g.nodes.length + 2) [] [(0, s, [s])] with
  | none => rfl
  | some pr =>
    obtain ⟨p, d⟩ := pr
    exfalso
    refine hnr ?_
    have hOK : ∀ en ∈ [((0 : ℚ), s, [s])], EntryOK g s en := by
      intro en hen
      simp only [List.mem_singleton] at hen
      subst hen
      exact ⟨rfl, rfl, rfl⟩
    obtain ⟨hw, hh, hl⟩ := dijkstraLoop_sound g s t _ _ _ p d hOK hrun
    exact ⟨p, hw, hh, hl⟩

def gC2 : Graph := ⟨[(1, {}), (2, {})], []⟩

/-- Witness for C2: two present nodes with no edge at all between them. -/
theorem C2_witness : find_optimal_route gC2 1 2 = ([], ⊤) :=
  C2_disconnected_no_path gC2 1 2 (by decide) (by decide) (by
    rintro ⟨p, hw, hh, hl⟩
    cases p with
    | nil => simp at hh
    | cons a rest =>
      cases rest with
      | nil =>
        simp only [List.head?_cons, Option.some.injEq] at hh
        simp only [List.getLast?_singleton, Option.some.injEq] at hl
        omega
      | cons b rest2 => simp [isWalk, adj, gC2] at hw)

def gC3 : Graph := ⟨[(1, {}), (2, {})], []⟩

/-- Counterexample to C3: node 99 is absent from `gC3`, yet
`find_optimal_route gC3 99 1` returns exactly the same `([], +∞)` outcome as
the NoPathFound query `find_optimal_route gC3 1 2` between the two present but
disconnected nodes: the caller receives no distinct InvalidNode signal. -/
theorem C3_counterexample :
    (99 ∉ gC3.nodeIds) ∧ 1 ∈ gC3.nodeIds ∧ 2 ∈ gC3.nodeIds ∧
    find_optimal_route gC3 99 1 = ([], ⊤) ∧
    find_optimal_route gC3 1 2 = ([], ⊤) ∧
    find_optimal_route gC3 99 1 = find_optimal_route gC3 1 2 := by
  refine ⟨by decide, by decide, by decide, ?_, ?_, ?_⟩ <;>
    simp [find_optimal_route, dijkstra, gC3, Graph.nodeIds, dijkstraLoop, popMin, relax,
      successors]

/-- C3 amended: a query whose source or target is absent makes the library
solver raise `NodeNotFound` — internally a condition distinct from
`NetworkXNoPath` — but `find_optimal_route`'s catch-all handler maps it to the
same `([], +∞)` value NoPathFound receives, so the query's caller sees no
distinct signal; the query leaves the graph untouched (the solver never writes
to it). -/
theorem C3_invalid_node_amended (g : Graph) (s t : ℕ)
    (h : s ∉ g.nodeIds ∨ t ∉ g.nodeIds) :
    dijkstra g s t = Except.error SolverErr.nodeNotFound ∧
    find_optimal_route g s t = ([], ⊤) := by
  have hc : ¬ (s ∈ g.nodeIds ∧ t ∈ g.nodeIds) := by tauto
  constructor
  · rw [dijkstra, if_neg hc]
  · rw [find_optimal_route, dijkstra, if_neg hc]

/-- Witness for the amended C3 at the concrete graph `gC3`. -/
theorem C3_witness :
    dijkstra gC3 99 1 = Except.error SolverErr.nodeNotFound ∧
    find_optimal_route gC3 99 1 = ([], ⊤) :=
  C3_invalid_node_amended gC3 99 1 (Or.inl (by decide))

def gC1 : Graph :=
  ⟨[(1, {}), (2, {})],
   [⟨1, 2, 0, { composite_weight := some (8/10) }⟩,
    ⟨1, 2, 1, { composite_weight := some (2/10) }⟩]⟩

/-- C1: on a graph with two parallel edges 1→2 of composite weights 0.8 (key 0)
and 0.2 (key 1), the solver uses the minimum-cost parallel edge and reports
total cost 0.2, while `analyze_route_composition` reads `graph[u][v][0]` — the
always-first key-0 edge — and reports average composite weight 0.8 ≠ 0.2:
the analyzer does not select the edge instance the solver used. -/
theorem C1_parallel_edge_divergence :
    find_optimal_route gC1 1 2 = ([1, 2], ((2/10 : ℚ) : WithTop ℚ)) ∧
    (analyze_route_composition gC1 [1, 2]).map (fun a => a.average_composite_weight)
      = some (8/10) ∧
    (8/10 : ℚ) ≠ 2/10 := by
  refine ⟨?_, ?_, by norm_num⟩
  · norm_num [find_optimal_route, dijkstra, gC1, Graph.nodeIds, dijkstraLoop, popMin, relax,
      successors, minEdgeWeight, pyMin, adj]
  · norm_num [analyze_route_composition, segmentPairs, segmentEdge, adj, gC1, List.filterMap,
      List.find?, distVal, elevVal, paserScoreVal]

theorem minmax_norm_bounds {lo hi x : ℚ} (hlo : lo ≤ x) (hhi : x ≤ hi) :
    0 ≤ (if lo < hi then (x - lo) / (hi - lo) else 0) ∧
    (if lo < hi then (x - lo) / (hi - lo) else 0) ≤ 1 := by
  split
  · next h =>
    constructor
    · exact div_nonneg (by linarith) (by linarith)
    · rw [div_le_one (by linarith)]
      linarith
  · next => norm_num

theorem elev_norm_bounds {hi y : ℚ} (hy : 0 ≤ y) (hhi : y ≤ hi) :
    0 ≤ (if 0 < hi then y / hi else 0) ∧ (if 0 < hi then y / hi else 0) ≤ 1 := by
  split
  · next h =>
    refine ⟨div_nonneg hy (le_of_lt h), ?_⟩
    rw [div_le_one h]
    exact hhi
  · next => norm_num

def gC6 : Graph :=
  ⟨[(1, { elevation := Val.num 0 }), (2, { elevation := Val.num 1 }),
    (3, { elevation := Val.num 0 }), (4, { elevation := Val.num 2 })],
   [⟨1, 2, 0, { inverted_paser := Val.num 2, length := Val.num 10 }⟩,
    ⟨3, 4, 0, { inverted_paser := Val.num 8, length := Val.num 20 }⟩]⟩

def gC6d : Graph := calculate_elevation_gain gC6

/-- Counterexample to C6: after derivation the two edges of `gC6` carry gains 1
and 2, so the elevation channel is non-degenerate (min 1 ≠ max 2), yet the
normalized elevations are 1/2 and 1 — no edge attains 0 on that channel,
because elevation is scaled by `value / max`, not min-max. -/
theorem C6_counterexample :
    pyMin (elevList gC6d) ≠ pyMax (elevList gC6d) ∧
    (normalize_edge_attributes gC6d).map
      (fun g => g.edges.map (fun e => e.data.norm_elev)) = some [some (1/2), some 1] ∧
    (normalize_edge_attributes gC6d).map
      (fun g => g.edges.all (fun e => e.data.norm_elev != some 0)) = some true := by
  refine ⟨?_, ?_, ?_⟩
  · simp only [gC6d, gC6, calculate_elevation_gain, Graph.elevOf, edgeGain, floatElev,
      List.find?, List.map, Nat.reduceBEq, beq_self_eq_true, Option.map, Option.getD,
      elevList, pyMin, pyMax, elevVal]
    norm_num
  · simp only [normalize_edge_attributes, gC6d, gC6, calculate_elevation_gain, Graph.elevOf,
      edgeGain, floatElev, List.find?, List.map, Nat.reduceBEq, beq_self_eq_true, Option.map,
      Option.getD, paserList, elevList, distList, pyMin, pyMax, normEdgeData,
      paserVal, elevVal, distVal]
    norm_num
  · simp only [normalize_edge_attributes, gC6d, gC6, calculate_elevation_gain, Graph.elevOf,
      edgeGain, floatElev, List.find?, List.map, Nat.reduceBEq, beq_self_eq_true, Option.map,
      Option.getD, paserList, elevList, distList, pyMin, pyMax, normEdgeData,
      paserVal, elevVal, distVal, List.all]
    norm_num

/-- C6 amended: on a non-empty edge set with nonnegative derived elevation
gains, every normalized channel value lies in `[0,1]`; on the non-degenerate
inverted-PASER and distance channels some edge attains `0` and some edge
attains `1`; on the elevation channel some edge attains `1` whenever the
maximum gain is positive, but the minimum attained value is `min/max`, which
need not be `0`. -/
theorem C6_normalization_bounds (g g2 : Graph)
    (hg : ∀ e ∈ g.edges, 0 ≤ elevVal e.data)
    (hn : normalize_edge_attributes g = some g2) :
    (∀ e ∈ g2.edges,
      (∃ p, e.data.norm_paser = some p ∧ 0 ≤ p ∧ p ≤ 1) ∧
      (∃ q, e.data.norm_elev = some q ∧ 0 ≤ q ∧ q ≤ 1) ∧
      (∃ r, e.data.norm_dist = some r ∧ 0 ≤ r ∧ r ≤ 1)) ∧
    (pyMin (paserList g) ≠ pyMax (paserList g) →
      (∃ e ∈ g2.edges, e.data.norm_paser = some 0) ∧
      (∃ e ∈ g2.edges, e.data.norm_paser = some 1)) ∧
    (pyMin (distList g) ≠ pyMax (distList g) →
      (∃ e ∈ g2.edges, e.data.norm_dist = some 0) ∧
      (∃ e ∈ g2.edges, e.data.norm_dist = some 1)) ∧
    (∀ M, pyMax (elevList g) = some M → 0 < M →
      ∃ e ∈ g2.edges, e.data.norm_elev = some 1) := by
  unfold normalize_edge_attributes at hn
  split at hn
  · next minp maxp mine maxe mind maxd hminp hmaxp hmine hmaxe hmind hmaxd =>
    rw [Option.some.injEq] at hn
    subst hn
    refine ⟨?_, ?_, ?_, ?_⟩
    · intro e he
      simp only [List.mem_map] at he
      obtain ⟨e0, he0, rfl⟩ := he
      have hxp : paserVal e0.data ∈ paserList g :=
        List.mem_map_of_mem (fun e => paserVal e.data) he0
      have hxe : elevVal e0.data ∈ elevList g :=
        List.mem_map_of_mem (fun e => elevVal e.data) he0
      have hxd : distVal e0.data ∈ distList g :=
        List.mem_map_of_mem (fun e => distVal e.data) he0
      refine ⟨⟨_, rfl, minmax_norm_bounds (pyMin_le hminp _ hxp) (pyMax_ge hmaxp _ hxp)⟩,
        ⟨_, rfl, elev_norm_bounds (hg e0 he0) (pyMax_ge hmaxe _ hxe)⟩,
        ⟨_, rfl, minmax_norm_bounds (pyMin_le hmind _ hxd) (pyMax_ge hmaxd _ hxd)⟩⟩
    · intro hne
      rw [hminp, hmaxp, Ne, Option.some.injEq] at hne
      have hle : minp ≤ maxp := pyMin_le hminp maxp (pyMax_mem hmaxp)
      have hlt : minp < maxp := lt_of_le_of_ne hle hne
      constructor
      · obtain ⟨e0, he0, hval⟩ := List.mem_map.mp (pyMin_mem hminp)
        refine ⟨_, List.mem_map_of_mem _ he0, ?_⟩
        show some (if minp < maxp then (paserVal e0.data - minp) / (maxp - minp) else 0)
          = some 0
        rw [if_pos hlt, hval, sub_self, zero_div]
      · obtain ⟨e0, he0, hval⟩ := List.mem_map.mp (pyMax_mem hmaxp)
        refine ⟨_, List.mem_map_of_mem _ he0, ?_⟩
        show some (if minp < maxp then (paserVal e0.data - minp) / (maxp - minp) else 0)
          = some 1
        rw [if_pos hlt, hval, div_self (ne_of_gt (sub_pos.mpr hlt))]
    · intro hne
      rw [hmind, hmaxd, Ne, Option.some.injEq] at hne
      have hle : mind ≤ maxd := pyMin_le hmind maxd (pyMax_mem hmaxd)
      have hlt : mind < maxd := lt_of_le_of_ne hle hne
      constructor
      · obtain ⟨e0, he0, hval⟩ := List.mem_map.mp (pyMin_mem hmind)
        refine ⟨_, List.mem_map_of_mem _ he0, ?_⟩
        show some (if mind < maxd then (distVal e0.data - mind) / (maxd - mind) else 0)
          = some 0
        rw [if_pos hlt, hval, sub_self, zero_div]
      · obtain ⟨e0, he0, hval⟩ := List.mem_map.mp (pyMax_mem hmaxd)
        refine ⟨_, List.mem_map_of_mem _ he0, ?_⟩
        show some (if mind < maxd then (distVal e0.data - mind) / (maxd - mind) else 0)
          = some 1
        rw [if_pos hlt, hval, div_self (ne_of_gt (sub_pos.mpr hlt))]
    · intro M hM hMpos
      rw [hmaxe, Option.some.injEq] at hM
      subst hM
      obtain ⟨e0, he0, hval⟩ := List.mem_map.mp (pyMax_mem hmaxe)
      refine ⟨_, List.mem_map_of_mem _ he0, ?_⟩
      show some (if 0 < maxe then elevVal e0.data / maxe else 0) = some 1
      rw [if_pos hMpos, hval, div_self (ne_of_gt hMpos)]
  · next => exact absurd hn (by simp)

def gC6n : Graph := (normalize_edge_attributes gC6d).getD ⟨[], []⟩

/-- Witness for the amended C6 at the concrete graph `gC6d`. -/
theorem C6_witness :
    (∃ e ∈ gC6n.edges, e.data.norm_paser = some 0) ∧
    (∃ e ∈ gC6n.edges, e.data.norm_paser = some 1) :=
  (C6_normalization_bounds gC6d gC6n
    (by
      simp only [gC6d, gC6, calculate_elevation_gain, Graph.elevOf, edgeGain, floatElev,
        List.find?, List.map, Nat.reduceBEq, beq_self_eq_true, Option.map, Option.getD,
        elevVal, List.forall_mem_cons, List.forall_mem_nil]
      norm_num)
    (by
      simp only [gC6n, normalize_edge_attributes, gC6d, gC6, calculate_elevation_gain,
        Graph.elevOf, edgeGain, floatElev, List.find?, List.map, Nat.reduceBEq,
        beq_self_eq_true, Option.map, Option.getD, paserList, elevList, distList, pyMin,
        pyMax, normEdgeData, paserVal, elevVal, distVal])).2.1
    (by
      simp only [gC6d, gC6, calculate_elevation_gain, Graph.elevOf, edgeGain, floatElev,
        List.find?, List.map, Nat.reduceBEq, beq_self_eq_true, Option.map, Option.getD,
        paserList, pyMin, pyMax, paserVal]
      norm_num)

end Stage6
